import Mathlib

/-!
Shallow embedding of the golift cache module (package cache).

Time is modelled as `Int` nanoseconds (Go `time.Time` instants and
`time.Duration` values are both int64 nanosecond counts for the purposes
of the arithmetic the module performs). The Go zero time is modelled by
the integer 0, matching `time.Time.IsZero`. The payload type `any` is
modelled by `Option α` for an arbitrary type `α`, with `none` standing
for the untyped `nil` interface value. The string-keyed Go map backing
the cache is modelled by an association list with replace-on-insert
semantics.
-/

namespace GoliftCache

/-- Options are optional, and may be provided when saving a cached item
(cache.go). `Expire` is a time instant; the zero instant means never. -/
structure Options where
  Prune : Bool
  Expire : Int
  deriving Repr, DecidableEq

/-- Item is what is returned from a cache Get (cache.go). `opts` is the
private options pointer: `none` models a nil pointer. -/
structure Item (α : Type) where
  Data : Option α
  Time : Int
  Last : Int
  Hits : Int
  opts : Option Options
  deriving Repr, DecidableEq

/-- copy an item so it can be returned to the caller (part_001 lines
179-188): only Data, Time, Last and Hits are carried over; the private
options pointer is left nil. -/
def Item.copy {α : Type} (i : Item α) : Item α :=
  { Data := i.Data, Time := i.Time, Last := i.Last, Hits := i.Hits, opts := none }

/-- Config provides the input options for a new cache (cache.go). All
durations in nanoseconds. -/
structure Config where
  PruneInterval : Int
  PruneAfter : Int
  MaxUnused : Int
  RequestAccuracy : Int
  deriving Repr, DecidableEq

/-- Stats contains the exported cache statistics (stats.go). `Size` and
`Gets` are derived fields, filled in only by the facade snapshot;
`Pruning` is the accumulated prune wall time. -/
structure Stats where
  Size : Int
  Gets : Int
  Hits : Int
  Misses : Int
  Saves : Int
  Updates : Int
  Deletes : Int
  DelMiss : Int
  Pruned : Int
  Prunes : Int
  Pruning : Int
  deriving Repr, DecidableEq

/-- The zero value of Stats, as produced by Go for the embedded field. -/
def statsZero : Stats :=
  { Size := 0, Gets := 0, Hits := 0, Misses := 0, Saves := 0, Updates := 0,
    Deletes := 0, DelMiss := 0, Pruned := 0, Prunes := 0, Pruning := 0 }

/-- The Go map from string key to pointer-to-Item, as an association
list. All mutation happens through `Store.insert` and `Store.erase`. -/
abbrev Store (α : Type) : Type := List (String × Item α)

/-- Map lookup `c.cache[key]`: the nil result of a missing key is
modelled by `none`. -/
def Store.find {α : Type} (s : Store α) (k : String) : Option (Item α) :=
  (s.find? (fun p => p.1 == k)).map (fun p => p.2)

/-- Map deletion `delete(c.cache, key)`. -/
def Store.erase {α : Type} (s : Store α) (k : String) : Store α :=
  s.filter (fun p => p.1 != k)

/-- Map assignment `c.cache[key] = item` (replace or add). -/
def Store.insert {α : Type} (s : Store α) (k : String) (i : Item α) : Store α :=
  (k, i) :: s.erase k

/-- The worker-owned cache state: the backing map, the configuration and
the statistics counters (cache.go struct Cache, minus the channels and
lifecycle fields that carry no data). -/
structure Cache (α : Type) where
  cache : Store α
  conf : Config
  stats : Stats
  deriving Repr, DecidableEq

/-- req is the request channel message (part_001 lines 9-16). `opts`
models the `*Options` pointer, `data` the `any` payload. -/
structure Req (α : Type) where
  key : String
  get : Bool
  stat : Bool
  list : Bool
  data : Option α
  opts : Option Options
  deriving Repr, DecidableEq

/-- The reply channel carries a `*Item` whose Data field is reused as an
untyped container: nil, a plain item, a listing map, or a stats copy
with the size smuggled in the Hits field. We model the four shapes as a
sum. -/
inductive Res (α : Type) where
  | nil : Res α
  | item : Item α → Res α
  | listing : List (String × Item α) → Res α
  | stat : Stats → Int → Res α
  deriving Repr, DecidableEq

/-- The facade comparison `responseItem != nil`. -/
def Res.nonNil {α : Type} : Res α → Bool
  | Res.nil => false
  | _ => true

/-- The facade use of the response as a plain `*Item`. -/
def Res.toItem {α : Type} : Res α → Option (Item α)
  | Res.item i => some i
  | _ => none

/-- The facade type assertion of the response Data to the listing map;
a failed assertion yields the nil (empty) map. -/
def Res.toListing {α : Type} : Res α → List (String × Item α)
  | Res.listing m => m
  | _ => []

namespace Cache

/-- get (part_001 lines 119-131): on hit bump the global and per-item
hit counters, stamp the last access time, and hand back a copy; on miss
bump the miss counter. -/
def get {α : Type} (c : Cache α) (key : String) (now : Int) :
    Cache α × Option (Item α) :=
  match c.cache.find key with
  | some item =>
      let item2 : Item α := { item with Hits := item.Hits + 1, Last := now }
      ({ c with cache := c.cache.insert key item2,
                stats := { c.stats with Hits := c.stats.Hits + 1 } },
       some item2.copy)
  | none =>
      ({ c with stats := { c.stats with Misses := c.stats.Misses + 1 } }, none)

/-- save (part_001 lines 133-152): with replace set, first run a full
get to apply stats; otherwise peek at the map without touching stats.
Count an update or a save by whether a prior item was seen, then
unconditionally store a fresh item. -/
def save {α : Type} (c : Cache α) (r : Req α) (now : Int) (replace : Bool) :
    Cache α × Option (Item α) :=
  let pair :=
    if replace then c.get r.key now
    else (c, c.cache.find r.key)
  let c1 := pair.1
  let item := pair.2
  let c2 :=
    if item.isSome then { c1 with stats := { c1.stats with Updates := c1.stats.Updates + 1 } }
    else { c1 with stats := { c1.stats with Saves := c1.stats.Saves + 1 } }
  let fresh : Item α := { Data := r.data, Time := now, Last := now, Hits := 0, opts := r.opts }
  ({ c2 with cache := c2.cache.insert r.key fresh }, item)

/-- list (part_001 lines 154-161): a fresh map holding a copy of every
item. -/
def list {α : Type} (c : Cache α) : List (String × Item α) :=
  c.cache.map (fun p => (p.1, p.2.copy))

/-- delete (part_001 lines 163-177): a miss bumps DelMiss; a hit nils
the private options pointer of the removed item, bumps Deletes, removes
the key and returns the (not copied) item. -/
def delete {α : Type} (c : Cache α) (key : String) : Cache α × Option (Item α) :=
  match c.cache.find key with
  | none =>
      ({ c with stats := { c.stats with DelMiss := c.stats.DelMiss + 1 } }, none)
  | some item =>
      ({ c with cache := c.cache.erase key,
                stats := { c.stats with Deletes := c.stats.Deletes + 1 } },
       some { item with opts := none })

end Cache

/-- The per-item eviction test of the prune loop (part_001 lines
110-112): `last > MaxUnused || (opts.Prune && last > PruneAfter) ||
(!opts.Expire.IsZero() && from.After(opts.Expire))`. Items put in the
store by save always carry an options pointer; a nil pointer would make
the Go code panic past the first disjunct, and is defaulted here to the
zero Options value, which that first disjunct ignores anyway. -/
def shouldPrune {α : Type} (conf : Config) (now : Int) (item : Item α) : Bool :=
  let o := item.opts.getD { Prune := false, Expire := 0 }
  let last := now - item.Last
  decide (last > conf.MaxUnused) ||
    (o.Prune && decide (last > conf.PruneAfter)) ||
    (decide (o.Expire ≠ 0) && decide (now > o.Expire))

namespace Cache

/-- prune (part_001 lines 106-117): bump the run counter, then walk the
map deleting every eligible entry and counting each deletion. Only the
entry being visited is ever deleted, so the loop is the filter of the
map by the eviction test, and the deletion count is the number of
entries the test selects. -/
def prune {α : Type} (c : Cache α) (now : Int) : Cache α :=
  { c with
    cache := c.cache.filter (fun p => !shouldPrune c.conf now p.2),
    stats := { c.stats with
      Prunes := c.stats.Prunes + 1,
      Pruned := c.stats.Pruned +
        ((c.cache.countP (fun p => shouldPrune c.conf now p.2) : Nat) : Int) } }

/-- process (part_001 lines 90-103): dispatch one request inside the
worker turn, with the cached now. A non-nil data field means save (with
the get flag selecting replace semantics); otherwise get, list and stat
are tried in order, and the fallthrough is delete. -/
def process {α : Type} (c : Cache α) (now : Int) (r : Req α) : Cache α × Res α :=
  if r.data.isSome then
    let pair := c.save r now r.get
    (pair.1, match pair.2 with | some i => Res.item i | none => Res.nil)
  else if r.get then
    let pair := c.get r.key now
    (pair.1, match pair.2 with | some i => Res.item i | none => Res.nil)
  else if r.list then
    (c, Res.listing c.list)
  else if r.stat then
    (c, Res.stat c.stats ((c.cache.length : Nat) : Int))
  else
    let pair := c.delete r.key
    (pair.1, match pair.2 with | some i => Res.item i | none => Res.nil)

/-- Facade Get (cache.go lines 189-192): send a get request, return the
reply item. -/
def Get {α : Type} (c : Cache α) (now : Int) (key : String) :
    Cache α × Option (Item α) :=
  let pair := c.process now
    { key := key, get := true, stat := false, list := false, data := none, opts := none }
  (pair.1, pair.2.toItem)

/-- Facade Save (cache.go lines 197-200): send a save request with the
options pointer, report whether the reply was non-nil. -/
def Save {α : Type} (c : Cache α) (now : Int) (key : String)
    (data : Option α) (opts : Options) : Cache α × Bool :=
  let pair := c.process now
    { key := key, get := false, stat := false, list := false, data := data, opts := some opts }
  (pair.1, pair.2.nonNil)

/-- Facade Update (cache.go lines 207-210): a save request with the get
flag also set; returns the reply item. -/
def Update {α : Type} (c : Cache α) (now : Int) (key : String)
    (data : Option α) (opts : Options) : Cache α × Option (Item α) :=
  let pair := c.process now
    { key := key, get := true, stat := false, list := false, data := data, opts := some opts }
  (pair.1, pair.2.toItem)

/-- Facade Delete (cache.go lines 214-217): a request with no flags and
nil data falls through to the delete op; report whether the reply was
non-nil. -/
def Delete {α : Type} (c : Cache α) (now : Int) (key : String) : Cache α × Bool :=
  let pair := c.process now
    { key := key, get := false, stat := false, list := false, data := none, opts := none }
  (pair.1, pair.2.nonNil)

/-- Facade List (cache.go lines 227-232): send a list request and
type-assert the reply Data back to the map. -/
def List {α : Type} (c : Cache α) (now : Int) :
    Cache α × List (String × Item α) :=
  let pair := c.process now
    { key := "", get := false, stat := false, list := true, data := none, opts := none }
  (pair.1, pair.2.toListing)

/-- Facade Stats (stats.go lines 26-34): send a stat request; the reply
carries a value copy of the counters in Data and the live size in Hits.
The facade then derives Gets as hits plus misses and sets Size. The
fallback arm models the type-assertion panic on an impossible reply
shape. -/
def Stats {α : Type} (c : Cache α) (now : Int) : Cache α × GoliftCache.Stats :=
  let pair := c.process now
    { key := "", get := false, stat := true, list := false, data := none, opts := none }
  match pair.2 with
  | Res.stat s size => (pair.1, { s with Gets := s.Hits + s.Misses, Size := size })
  | _ => (pair.1, statsZero)

end Cache

/-- Duration defaults and bounds (cache.go lines 75-82), in
nanoseconds. -/
def millisecond : Int := 1000000

/-- One second in nanoseconds. -/
def second : Int := 1000 * millisecond

/-- One minute in nanoseconds. -/
def minute : Int := 60 * second

/-- One hour in nanoseconds. -/
def hour : Int := 60 * minute

/-- Use cache.Forever to avoid expiring unused items. -/
def defaultMaxUnused : Int := 25 * hour

/-- Not optimized for sub-second caches. -/
def minimumPruneDur : Int := second

/-- Default PruneAfter when unset. -/
def defaultPruneDur : Int := 18 * minute

/-- Default clock-refresh accuracy. -/
def defaultAccuracy : Int := second

/-- Minimum clock-refresh accuracy. -/
def minimumAccuracy : Int := 100 * millisecond

/-- Maximum clock-refresh accuracy. -/
def maximumAccuracy : Int := hour

/-- newCache (cache.go lines 111-136): clamp the configuration and
build the cache value. The Go code leaves the map nil until start()
makes it; we model the started state with the empty map. -/
def newCache (α : Type) (conf : Config) : Cache α :=
  let c1 :=
    if conf.RequestAccuracy = 0 then { conf with RequestAccuracy := defaultAccuracy }
    else if conf.RequestAccuracy < minimumAccuracy then { conf with RequestAccuracy := minimumAccuracy }
    else if conf.RequestAccuracy > maximumAccuracy then { conf with RequestAccuracy := maximumAccuracy }
    else conf
  let c2 :=
    if c1.PruneInterval ≠ 0 ∧ c1.PruneInterval < minimumPruneDur then
      { c1 with PruneInterval := minimumPruneDur }
    else c1
  let c3 :=
    if c2.PruneAfter = 0 then { c2 with PruneAfter := defaultPruneDur } else c2
  let c4 :=
    if c3.MaxUnused = 0 then { c3 with MaxUnused := defaultMaxUnused } else c3
  { cache := [], conf := c4, stats := statsZero }

/-!
Lemmas about the store operations, and bridging lemmas reducing each
facade call to the worker operation the processor dispatches it to.
-/

theorem Store.find_cons {α : Type} (p : String × Item α) (t : Store α) (q : String) :
    Store.find (p :: t) q = if p.1 = q then some p.2 else Store.find t q := by
  by_cases h : p.1 = q <;> simp [Store.find, List.find?_cons, h]

theorem Store.erase_cons {α : Type} (p : String × Item α) (t : Store α) (k : String) :
    Store.erase (p :: t) k = if p.1 = k then Store.erase t k else p :: Store.erase t k := by
  by_cases h : p.1 = k <;> simp [Store.erase, List.filter_cons, h]

theorem Store.find_erase {α : Type} (s : Store α) (k q : String) :
    (s.erase k).find q = if q = k then none else s.find q := by
  induction s with
  | nil => by_cases h : q = k <;> simp [Store.erase, Store.find, h]
  | cons p t ih =>
    rw [Store.erase_cons]
    by_cases hpk : p.1 = k
    · rw [if_pos hpk, ih, Store.find_cons]
      by_cases hqk : q = k
      · simp [hqk]
      · have : p.1 ≠ q := by rw [hpk]; exact fun hh => hqk hh.symm
        simp [hqk, this]
    · rw [if_neg hpk, Store.find_cons, Store.find_cons, ih]
      by_cases hpq : p.1 = q
      · have : ¬ q = k := by rw [← hpq]; exact fun hh => hpk hh
        simp [hpq, this]
      · simp [hpq]

theorem Store.find_insert {α : Type} (s : Store α) (k q : String) (i : Item α) :
    (s.insert k i).find q = if q = k then some i else s.find q := by
  rw [Store.insert, Store.find_cons, Store.find_erase]
  by_cases h : q = k
  · simp [h]
  · have : k ≠ q := fun hh => h hh.symm
    simp [h, this]

theorem Store.find_map_copy {α : Type} (s : Store α) (k : String) :
    Store.find (s.map (fun p => (p.1, p.2.copy))) k = (s.find k).map Item.copy := by
  induction s with
  | nil => simp [Store.find]
  | cons p t ih => by_cases h : p.1 = k <;> simp [Store.find_cons, h, ih]

theorem countP_add_length_filter_not {α : Type} (l : List α) (p : α → Bool) :
    l.countP p + (l.filter (fun a => !p a)).length = l.length := by
  induction l with
  | nil => simp
  | cons a t ih =>
    by_cases h : p a = true <;>
      simp [List.countP_cons, List.filter_cons, h] <;> omega

theorem Cache.Get_eq {α : Type} (c : Cache α) (now : Int) (k : String) :
    c.Get now k = c.get k now := by
  unfold Cache.Get Cache.process
  cases h : c.get k now with
  | mk c2 r => cases r <;> simp [Res.toItem, h]

theorem Cache.List_eq {α : Type} (c : Cache α) (now : Int) :
    c.List now = (c, c.list) := by
  simp [Cache.List, Cache.process, Res.toListing]

theorem Cache.Stats_eq {α : Type} (c : Cache α) (now : Int) :
    c.Stats now =
      (c, { c.stats with Gets := c.stats.Hits + c.stats.Misses,
                         Size := (c.cache.length : Int) }) := by
  simp [Cache.Stats, Cache.process]

/-!
Concrete fixtures shared by the closed witness and counterexample
theorems below.
-/

/-- A sample options value with the prune flag set. -/
def oW : Options := { Prune := true, Expire := 7 }

/-- A sample stored item carrying options. -/
def itemW : Item Nat := { Data := some 5, Time := 1, Last := 2, Hits := 3, opts := some oW }

/-- A sample configuration with small thresholds. -/
def confW : Config :=
  { PruneInterval := second, PruneAfter := 50, MaxUnused := 100, RequestAccuracy := second }

/-- A sample one-item cache state. -/
def cW : Cache Nat := { cache := [("k", itemW)], conf := confW, stats := statsZero }

/-- An item whose absolute expiry deadline is the instant 5, not
prunable, freshly accessed at 5. -/
def itemX : Item Nat :=
  { Data := some 9, Time := 0, Last := 5, Hits := 0,
    opts := some { Prune := false, Expire := 5 } }

/-- A one-item cache state holding `itemX`. -/
def cX : Cache Nat := { cache := [("x", itemX)], conf := confW, stats := statsZero }

/-- An item with no expiry and no prune flag, last accessed at 0. -/
def itemY : Item Nat :=
  { Data := some 1, Time := 0, Last := 0, Hits := 0,
    opts := some { Prune := false, Expire := 0 } }

/-- A one-item cache state holding `itemY`. -/
def cY : Cache Nat := { cache := [("y", itemY)], conf := confW, stats := statsZero }

/-- The all-zero configuration. -/
def confZeros : Config :=
  { PruneInterval := 0, PruneAfter := 0, MaxUnused := 0, RequestAccuracy := 0 }

/-- A configuration with tiny non-zero durations, all below the minima. -/
def confSmall : Config :=
  { PruneInterval := 1, PruneAfter := 5, MaxUnused := 5, RequestAccuracy := 1 }

/-!
The claims.
-/

/-- Claim C1: Save-then-Get round trip. For every key k and every
non-nil payload v, executing Save(k, v, with the zero options) and then
Get(k) on the same cache returns a non-absent item whose data field
equals v. -/
theorem save_then_get_roundtrip {α : Type} (c : Cache α) (now1 now2 : Int) (k : String) (v : α) :
    ∃ i : Item α,
      (((c.Save now1 k (some v) { Prune := false, Expire := 0 }).1.Get now2 k).2 = some i ∧
        i.Data = some v) := by
  refine ⟨{ Data := some v, Time := now1, Last := now2, Hits := 1, opts := none }, ?_, rfl⟩
  rw [Cache.Get_eq]
  simp only [Cache.Save, Cache.process, Cache.save, Cache.get]
  cases h : c.cache.find k with
  | none => simp [h, Store.find_insert, Item.copy]
  | some item => simp [h, Store.find_insert, Item.copy]

/-- Claim C2, counterexample. The claim says an entry with a non-zero
expiry deadline is evicted when now is at or past the deadline. Concrete
input: the store holds one entry whose expiry deadline is the instant 5,
with no prune flag, idle duration 0 (below both idle thresholds), and a
prune pass runs at now = 5, exactly at the deadline. The claim demands
eviction; the pass keeps the entry and counts nothing pruned, because
the code tests strictly-after (`from.After(expire)`), not at-or-past. -/
theorem prune_at_deadline_counterexample :
    itemX.opts = some { Prune := false, Expire := 5 } ∧
    (5 : Int) - itemX.Last ≤ confW.MaxUnused ∧
    (5 : Int) - itemX.Last ≤ confW.PruneAfter ∧
    (cX.prune 5).cache = [("x", itemX)] ∧
    (cX.prune 5).stats.Pruned = 0 ∧
    (cX.prune 5).stats.Prunes = 1 := by decide

/-- Claim C2, amended: the expiry disjunct requires now to be strictly
past the deadline (an entry still present exactly at its deadline is
kept). For every entry of the Store at a prune pass with current time
now, the entry is evicted if and only if the idle duration exceeds
maxUnused, or the prune flag is set and the idle duration exceeds
pruneAfter, or the expiry deadline is non-zero and now is strictly past
it; the pruned-items counter grows by exactly the number of evicted
entries, and the prune-run counter by exactly one even when nothing is
evicted. -/
theorem prune_spec {α : Type} (c : Cache α) (now : Int) :
    ((c.prune now).stats.Prunes = c.stats.Prunes + 1) ∧
    ((c.prune now).stats.Pruned =
       c.stats.Pruned + ((c.cache.length : Int) - ((c.prune now).cache.length : Int))) ∧
    (∀ (k : String) (i : Item α) (o : Options), (k, i) ∈ c.cache → i.opts = some o →
      ((k, i) ∉ (c.prune now).cache ↔
        (now - i.Last > c.conf.MaxUnused ∨
         (o.Prune = true ∧ now - i.Last > c.conf.PruneAfter) ∨
         (o.Expire ≠ 0 ∧ now > o.Expire)))) := by
  refine ⟨rfl, ?_, ?_⟩
  · have h := countP_add_length_filter_not c.cache (fun p => shouldPrune c.conf now p.2)
    simp only [Cache.prune]
    omega
  · intro k i o hmem hopts
    simp only [Cache.prune, List.mem_filter, hmem, true_and, Bool.not_eq_true',
      Bool.not_eq_false]
    rw [shouldPrune]
    simp [hopts, not_and_or, Decidable.imp_iff_not_or]
    tauto

/-- Claim C2, witness: a never-accessed entry with no prune flag and no
deadline is evicted by a pass at now = 200 with maxUnused = 100, and the
run counter advances. -/
theorem prune_spec_witness :
    ("y", itemY) ∉ (cY.prune 200).cache ∧
    (cY.prune 200).stats.Prunes = cY.stats.Prunes + 1 := by
  refine ⟨?_, (prune_spec cY 200).1⟩
  exact ((prune_spec cY 200).2.2 "y" itemY { Prune := false, Expire := 0 }
    (by decide) (by decide)).mpr (Or.inl (by decide))

/-- Claim C3: Get semantics. On a present key, Get increments the global
hit counter by one, increments the item hit counter by exactly one, sets
the item lastAccess to the worker cached now, and returns a copy holding
only data, createdAt, lastAccess and hits, with no options; on an absent
key it increments the miss counter by one, returns absent, and leaves
the Store (hence its size) unchanged. -/
theorem get_semantics {α : Type} (c : Cache α) (now : Int) (k : String) :
    (∀ i : Item α, c.cache.find k = some i →
      ((c.Get now k).1.stats.Hits = c.stats.Hits + 1 ∧
       (c.Get now k).1.stats.Misses = c.stats.Misses ∧
       (c.Get now k).1.cache.find k = some { i with Hits := i.Hits + 1, Last := now } ∧
       (c.Get now k).2 =
         some { Data := i.Data, Time := i.Time, Last := now, Hits := i.Hits + 1, opts := none })) ∧
    (c.cache.find k = none →
      ((c.Get now k).1.stats.Misses = c.stats.Misses + 1 ∧
       (c.Get now k).1.stats.Hits = c.stats.Hits ∧
       (c.Get now k).2 = none ∧
       (c.Get now k).1.cache = c.cache ∧
       (c.Get now k).1.cache.length = c.cache.length)) := by
  rw [Cache.Get_eq]
  constructor
  · intro i hi
    simp [Cache.get, hi, Store.find_insert, Item.copy]
  · intro hnone
    simp [Cache.get, hnone]

/-- Claim C3, witness: on the one-item fixture a Get of the present key
returns the stamped copy, and a Get of a missing key returns absent. -/
theorem get_semantics_witness :
    (cW.Get 10 "k").2 = some { Data := some 5, Time := 1, Last := 10, Hits := 4, opts := none } ∧
    (cW.Get 10 "missing").2 = none := by
  refine ⟨?_, ?_⟩
  · exact ((get_semantics cW 10 "k").1 itemW (by decide)).2.2.2
  · exact ((get_semantics cW 10 "missing").2 (by decide)).2.2.1

/-- Claim C4: Save semantics. For every key k and non-nil payload v,
Save(k, v, o) unconditionally replaces the entry at k with a fresh item
with createdAt = lastAccess = now, hits = 0 and options = o; it returns
true and increments the update counter (not the save counter) exactly
when a prior item existed, returns false and increments the save counter
when none existed, and leaves the hit and miss counters unchanged. -/
theorem save_semantics {α : Type} (c : Cache α) (now : Int) (k : String) (v : α) (o : Options) :
    (c.Save now k (some v) o).1.cache.find k =
        some { Data := some v, Time := now, Last := now, Hits := 0, opts := some o } ∧
    (c.Save now k (some v) o).2 = (c.cache.find k).isSome ∧
    (c.Save now k (some v) o).1.stats.Updates =
        c.stats.Updates + (if (c.cache.find k).isSome then 1 else 0) ∧
    (c.Save now k (some v) o).1.stats.Saves =
        c.stats.Saves + (if (c.cache.find k).isSome then 0 else 1) ∧
    (c.Save now k (some v) o).1.stats.Hits = c.stats.Hits ∧
    (c.Save now k (some v) o).1.stats.Misses = c.stats.Misses := by
  cases h : c.cache.find k with
  | none => simp [Cache.Save, Cache.process, Cache.save, h, Store.find_insert, Res.nonNil]
  | some item => simp [Cache.Save, Cache.process, Cache.save, h, Store.find_insert, Res.nonNil]

/-- Claim C5: Update decomposes as Get followed by Save. For every key k
and non-nil payload v, Update(k, v, o) has exactly the same effect on
the whole cache state (Store and every statistics counter) as a Get(k)
followed by a Save(k, v, o) in the same worker turn, and it returns what
that Get returned. -/
theorem update_decomposes_as_get_then_save {α : Type}
    (c : Cache α) (now : Int) (k : String) (v : α) (o : Options) :
    c.Update now k (some v) o =
      (((c.Get now k).1.Save now k (some v) o).1, (c.Get now k).2) := by
  rw [Cache.Get_eq]
  cases h : c.cache.find k with
  | none =>
    simp [Cache.Update, Cache.Save, Cache.process, Cache.save, Cache.get, h, Res.toItem]
  | some item =>
    simp [Cache.Update, Cache.Save, Cache.process, Cache.save, Cache.get, h,
      Store.find_insert, Res.toItem, Item.copy]

/-- Claim C6, counterexample. The claim says Delete on a present key
returns the removed Item unmodified. Concrete input: the fixture store
holds itemW, whose options pointer is set; delete returns the item with
its options pointer cleared, which differs from the stored item. -/
theorem delete_modifies_returned_item :
    (cW.delete "k").2 = some { itemW with opts := none } ∧
    (cW.delete "k").2 ≠ some itemW := by decide

/-- Claim C6, amended: on a present key, Delete removes it (a subsequent
Get misses), increments the delete counter by one, and returns the
removed Item with its data, creation time, last access and hit count
unmodified but its private options pointer cleared; on an absent key it
increments the delete-miss counter (not the delete counter) and returns
absent, leaving the Store unchanged. -/
theorem delete_semantics {α : Type} (c : Cache α) (now : Int) (k : String) :
    (∀ i : Item α, c.cache.find k = some i →
      ((c.delete k).2 = some { i with opts := none } ∧
       (c.delete k).1.cache.find k = none ∧
       ((c.delete k).1.Get now k).2 = none ∧
       (c.delete k).1.stats.Deletes = c.stats.Deletes + 1 ∧
       (c.delete k).1.stats.DelMiss = c.stats.DelMiss)) ∧
    (c.cache.find k = none →
      ((c.delete k).2 = none ∧
       (c.delete k).1.cache = c.cache ∧
       (c.delete k).1.stats.DelMiss = c.stats.DelMiss + 1 ∧
       (c.delete k).1.stats.Deletes = c.stats.Deletes)) := by
  constructor
  · intro i hi
    simp [Cache.delete, hi, Store.find_erase, Cache.Get_eq, Cache.get]
  · intro hnone
    simp [Cache.delete, hnone]

/-- Claim C6, witness: deleting the present fixture key removes it and
counts one delete; deleting a missing key returns absent. -/
theorem delete_semantics_witness :
    (cW.delete "k").1.cache.find "k" = none ∧
    (cW.delete "k").1.stats.Deletes = cW.stats.Deletes + 1 ∧
    (cW.delete "missing").2 = none := by
  refine ⟨?_, ?_, ?_⟩
  · exact ((delete_semantics cW 0 "k").1 itemW (by decide)).2.1
  · exact ((delete_semantics cW 0 "k").1 itemW (by decide)).2.2.2.1
  · exact ((delete_semantics cW 0 "missing").2 (by decide)).1

/-- Claim C7: List is effect-free on cache state. It leaves the whole
cache state (items and counters) untouched, returns a mapping holding a
copy of every current item (lookups in the returned mapping are the
copies of the Store lookups), its size equals the size reported by
Stats, and every subsequent Get is exactly what it would have been
before the List. -/
theorem list_semantics {α : Type} (c : Cache α) (now : Int) :
    (c.List now).1 = c ∧
    (∀ k : String, Store.find (c.List now).2 k = (c.cache.find k).map Item.copy) ∧
    (((c.List now).2.length : Int) = ((c.List now).1.Stats now).2.Size) ∧
    (∀ k : String, ((c.List now).1.Get now k) = c.Get now k) := by
  rw [Cache.List_eq]
  refine ⟨rfl, ?_, ?_, fun k => rfl⟩
  · intro k
    simp [Cache.list, Store.find_map_copy]
  · simp [Cache.list, Cache.Stats_eq]

/-- Claim C8: the Stats snapshot copies every counter as held when the
worker processed the request, derives gets as hits plus misses (never
reading the stored Gets field), reports size as the exact item count of
the Store at that instant, and modifies neither counters nor Store. -/
theorem stats_snapshot {α : Type} (c : Cache α) (now : Int) :
    (c.Stats now).1 = c ∧
    (c.Stats now).2.Gets = (c.Stats now).2.Hits + (c.Stats now).2.Misses ∧
    (c.Stats now).2.Gets = c.stats.Hits + c.stats.Misses ∧
    (c.Stats now).2.Size = (c.cache.length : Int) ∧
    (c.Stats now).2.Hits = c.stats.Hits ∧
    (c.Stats now).2.Misses = c.stats.Misses ∧
    (c.Stats now).2.Saves = c.stats.Saves ∧
    (c.Stats now).2.Updates = c.stats.Updates ∧
    (c.Stats now).2.Deletes = c.stats.Deletes ∧
    (c.Stats now).2.DelMiss = c.stats.DelMiss ∧
    (c.Stats now).2.Pruned = c.stats.Pruned ∧
    (c.Stats now).2.Prunes = c.stats.Prunes ∧
    (c.Stats now).2.Pruning = c.stats.Pruning := by
  rw [Cache.Stats_eq]
  exact ⟨rfl, rfl, rfl, rfl, rfl, rfl, rfl, rfl, rfl, rfl, rfl, rfl, rfl⟩

/-- Claim C9: nil-payload dispatch at the public interface. The worker
treats a request as a save only when its data is non-nil, so Save(k,
nil, o) is processed exactly as a Delete of k: it stores nothing, leaves
no entry at k, bumps the delete counter when k existed and the
delete-miss counter otherwise, and its boolean result reports whether k
existed; Update(k, nil, o) is processed exactly as a plain Get of k. -/
theorem nil_payload_dispatch {α : Type} (c : Cache α) (now : Int) (k : String) (o : Options) :
    c.Save now k none o = ((c.delete k).1, (c.delete k).2.isSome) ∧
    (c.Save now k none o).2 = (c.cache.find k).isSome ∧
    (c.Save now k none o).1.cache.find k = none ∧
    (c.Save now k none o).1.stats.Deletes =
        c.stats.Deletes + (if (c.cache.find k).isSome then 1 else 0) ∧
    (c.Save now k none o).1.stats.DelMiss =
        c.stats.DelMiss + (if (c.cache.find k).isSome then 0 else 1) ∧
    c.Update now k none o = c.Get now k := by
  cases h : c.cache.find k with
  | none =>
    simp [Cache.Save, Cache.Update, Cache.Get, Cache.process, Cache.delete, Cache.get, h,
      Res.nonNil, Res.toItem]
  | some item =>
    simp [Cache.Save, Cache.Update, Cache.Get, Cache.process, Cache.delete, Cache.get, h,
      Res.nonNil, Res.toItem, Store.find_erase]

/-- Characterization of construction: each configuration field is
clamped independently, exactly as the switch and ifs of newCache do. -/
theorem newCache_conf_eq {α : Type} (conf : Config) :
    (newCache α conf).conf =
      { PruneInterval :=
          if conf.PruneInterval ≠ 0 ∧ conf.PruneInterval < minimumPruneDur then minimumPruneDur
          else conf.PruneInterval,
        PruneAfter := if conf.PruneAfter = 0 then defaultPruneDur else conf.PruneAfter,
        MaxUnused := if conf.MaxUnused = 0 then defaultMaxUnused else conf.MaxUnused,
        RequestAccuracy :=
          if conf.RequestAccuracy = 0 then defaultAccuracy
          else if conf.RequestAccuracy < minimumAccuracy then minimumAccuracy
          else if conf.RequestAccuracy > maximumAccuracy then maximumAccuracy
          else conf.RequestAccuracy } := by
  unfold newCache
  by_cases h1 : conf.RequestAccuracy = 0 <;>
    by_cases h2 : conf.RequestAccuracy < minimumAccuracy <;>
      by_cases h3 : conf.RequestAccuracy > maximumAccuracy <;>
        by_cases h4 : conf.PruneInterval ≠ 0 ∧ conf.PruneInterval < minimumPruneDur <;>
          by_cases h5 : conf.PruneAfter = 0 <;>
            by_cases h6 : conf.MaxUnused = 0 <;>
              simp [h1, h2, h3, h4, h5, h6]

/-- Claim C10: configuration clamping. Construction silently clamps: a
requestAccuracy of 0 becomes 1 second, and any other value lands at the
nearest point of the interval from 100 milliseconds to 1 hour; a
pruneInterval of 0 stays 0 (pruning disabled) while any non-zero value
below 1 second is raised to 1 second and larger values pass through; a
pruneAfter of 0 becomes 18 minutes and a maxUnused of 0 becomes 25
hours. -/
theorem config_clamping {α : Type} (conf : Config) :
    ((conf.RequestAccuracy = 0 → (newCache α conf).conf.RequestAccuracy = second) ∧
     (conf.RequestAccuracy ≠ 0 →
        (newCache α conf).conf.RequestAccuracy =
          max minimumAccuracy (min maximumAccuracy conf.RequestAccuracy))) ∧
    ((conf.PruneInterval = 0 → (newCache α conf).conf.PruneInterval = 0) ∧
     (conf.PruneInterval ≠ 0 ∧ conf.PruneInterval < second →
        (newCache α conf).conf.PruneInterval = second) ∧
     (conf.PruneInterval ≥ second → (newCache α conf).conf.PruneInterval = conf.PruneInterval)) ∧
    (conf.PruneAfter = 0 → (newCache α conf).conf.PruneAfter = defaultPruneDur) ∧
    (conf.MaxUnused = 0 → (newCache α conf).conf.MaxUnused = defaultMaxUnused) := by
  have e4 : minimumPruneDur = second := rfl
  rw [newCache_conf_eq]
  refine ⟨⟨fun h => by simp [h, defaultAccuracy], fun h => ?_⟩,
    ⟨fun h => by simp [h], fun h => ?_, fun h => ?_⟩,
    fun h => by simp [h], fun h => by simp [h]⟩
  · have hma : minimumAccuracy ≤ maximumAccuracy := by decide
    by_cases h2 : conf.RequestAccuracy < minimumAccuracy <;>
      by_cases h3 : conf.RequestAccuracy > maximumAccuracy <;>
        simp [h, h2, h3] <;> omega
  · simp only [e4]
    simp [h]
  · have hne : ¬(conf.PruneInterval ≠ 0 ∧ conf.PruneInterval < minimumPruneDur) := by
      simp only [e4]
      omega
    simp [hne]

/-- Claim C10, witness: the all-zero configuration gets every default,
and tiny non-zero durations are raised to their minima. -/
theorem config_clamping_witness :
    (newCache Nat confZeros).conf.RequestAccuracy = second ∧
    (newCache Nat confSmall).conf.RequestAccuracy = minimumAccuracy ∧
    (newCache Nat confSmall).conf.PruneInterval = second ∧
    (newCache Nat confZeros).conf.PruneAfter = defaultPruneDur ∧
    (newCache Nat confZeros).conf.MaxUnused = defaultMaxUnused := by
  refine ⟨(@config_clamping Nat confZeros).1.1 rfl, ?_,
    (@config_clamping Nat confSmall).2.1.2.1 (by decide),
    (@config_clamping Nat confZeros).2.2.1 rfl,
    (@config_clamping Nat confZeros).2.2.2 rfl⟩
  have h := (@config_clamping Nat confSmall).1.2 (by decide)
  rw [h]
  decide

end GoliftCache
